import Mathlib

/-!
Verification of the SEAL-C core engine against its specification.

The definitions below are a shallow embedding of the C sources:
  * sign-digest.cpp  (byte-range digest engine `SealDigest`, `RangeErrorCheck`)
  * sign-verify.cpp  (`SealValidateRevoke`, `SealVerifyFinal`)
  * sign-sign.cpp    (`SealSign` placeholder-size check)
  * sign-local.cpp   (`SealSignLocal` signature padding)
  * seal-dns.cpp     (`SealDNSGet` cache lookup)
  * seal-parse.cpp   (hex / XML-entity codecs); base64 is OpenSSL BIO code
    (external to the repository) and is modelled from the spec.
  * sealtool.cpp     (exit-code accumulation in `main`)

C `size_t` values are modelled as `Nat`; `uint64` wrap-around additions are
made explicit with `% 2 ^ 64`.  Byte buffers are `List Nat` with entries
below 256.  Fallible operations return `Option` or `Except`.
-/

/-- The single-quote character (byte 39), used inside error-message strings. -/
def sqc : String := String.mk [Char.ofNat 39]

/-! ## Byte-range digest engine (src/sign-digest.cpp) -/

/-- Anchor environment for one `SealDigest` evaluation: the current signature
offsets `@s[0]`,`@s[1]`, the previous signature offsets `@p[0]`,`@p[1]`, and
the file length `Mmap->memsize`. -/
structure DigestEnv where
  s0 : Nat
  s1 : Nat
  p0 : Nat
  p1 : Nat
  flen : Nat
  deriving Repr, DecidableEq

/-- `uint64` addition of a signed delta with wrap-around, as produced by the
C statements of the form `sum[k] += acc*Addsym` on `uint64_t` sums. -/
def addWrap (x : Nat) (d : Int) : Nat := (((x : Int) + d) % 18446744073709551616).toNat

/-- Loop state of the `b=` finite-state machine in `SealDigest`
(sign-digest.cpp lines 111-320): parser state 0..5, accumulator `acc`,
sign `Addsym`, the two sums, the flag strings, the accumulated
`@digestrange` segment list, and `seg[0]` (start of the current segment
text, used only in error messages). -/
structure DigestState where
  state : Nat
  acc : Nat
  addsym : Int
  sum0 : Nat
  sum1 : Nat
  sflags0 : String
  sflags1 : String
  range : List (Nat × Nat)
  seg0 : Nat
  deriving Repr, DecidableEq

/-- Initial `SealDigest` loop state (`state=acc=sum[0]=sum[1]=0`, `Addsym=1`,
flags and ranges freshly deleted). -/
def digestInit : DigestState :=
  { state := 0, acc := 0, addsym := 1, sum0 := 0, sum1 := 0,
    sflags0 := "", sflags1 := "", range := [], seg0 := 0 }

/-- The `ValidChar` table of `SealDigest` (one string of permitted characters
per parser state). -/
def validChars : Nat → String
  | 0 => "+-pPsSfF0123456789~"
  | 1 => "+-~"
  | 2 => "pPsSfF0123456789"
  | 3 => "+-pPsSfF0123456789,"
  | 4 => "+-,"
  | 5 => "pPsSfF0123456789"
  | _ => ""

/-- `RangeErrorCheck()` (sign-digest.cpp lines 29-46): an empty range is
always permitted; otherwise later checks overwrite `@error` set by earlier
ones, so the last applicable message wins. -/
def RangeErrorCheck (sum0 sum1 flen : Nat) : Option String :=
  if sum0 = sum1 then none
  else
    let e : Option String := none
    let e := if sum0 > flen then some "Invalid range; start of range is beyond end of file" else e
    let e := if sum1 > flen then some "Invalid range; end of range is beyond end of file" else e
    let e := if sum0 ≥ sum1 then some "Invalid range; start of range is after end of range" else e
    e

/-- The value taken by `sum[1]` when `SealDigest` reaches a `,`
(sign-digest.cpp lines 281-286): with state 3 and an empty accumulator the
end of the range defaults to the file length, otherwise the accumulator is
added. -/
def commaSum1 (state acc : Nat) (addsym : Int) (sum1 flen : Nat) : Nat :=
  if state = 3 ∧ acc = 0 then flen else addWrap sum1 ((acc : Int) * addsym)

/-- The in-loop range check performed at a `,` (sign-digest.cpp lines
288-299), before `RangeErrorCheck` is consulted.  Note that, unlike
`RangeErrorCheck`, it does not exempt empty ranges from the bounds checks. -/
def commaCheckMsg (b : String) (sum0 sum1 flen : Nat) : Option String :=
  if sum1 < sum0 ∨ sum0 > flen ∨ sum1 > flen then
    some ("Invalid range in b=" ++ sqc ++ b ++ sqc
      ++ (if sum0 > flen then "; underflow" else "")
      ++ (if sum1 > flen then "; overflow" else "")
      ++ (if sum1 < sum0 then "; range begins after it ends" else ""))
  else none

/-- Effect of an anchor character (`S s P p F f`) with value `v` on the loop
state: it is added into `sum[0]` (states 0-2) or `sum[1]` (states 3-5), the
state moves to 1 resp. 4, the anchor letter is appended to `@sflags0`
resp. `@sflags1`, and the accumulator is cleared. -/
def anchorStep (st : DigestState) (v : Nat) (c : Char) : DigestState :=
  if st.state < 3 then
    { st with sum0 := addWrap st.sum0 ((v : Int) * st.addsym), state := 1,
              sflags0 := st.sflags0.push c, acc := 0 }
  else
    { st with sum1 := addWrap st.sum1 ((v : Int) * st.addsym), state := 4,
              sflags1 := st.sflags1.push c, acc := 0 }

/-- The segment text `b[seg0..i)` used in the invalid-character message. -/
def segText (b : String) (seg0 i : Nat) : String :=
  String.mk ((b.data.drop seg0).take (i - seg0))

/-- One iteration of the `SealDigest` character loop (sign-digest.cpp lines
138-320) on character `c` at index `i`.  Errors abort the loop (`goto
Abort`), carrying the state reached so far. -/
def digestStep (env : DigestEnv) (b : String) (i : Nat) (st : DigestState) (c : Char) :
    Except (DigestState × String) DigestState :=
  if ¬ (validChars st.state).data.contains c then
    .error (st, "Invalid range in b=" ++ sqc ++ b ++ sqc ++ " in " ++ sqc
                 ++ segText b st.seg0 i ++ sqc)
  else if c = '+' then
    .ok (if st.state < 3 then
          { st with sum0 := addWrap st.sum0 ((st.acc : Int) * st.addsym), state := 2,
                    addsym := 1, acc := 0 }
        else
          { st with sum1 := addWrap st.sum1 ((st.acc : Int) * st.addsym), state := 5,
                    addsym := 1, acc := 0 })
  else if c = '-' then
    .ok (if st.state < 3 then
          { st with sum0 := addWrap st.sum0 ((st.acc : Int) * st.addsym), state := 2,
                    addsym := -1, acc := 0 }
        else
          { st with sum1 := addWrap st.sum1 ((st.acc : Int) * st.addsym), state := 5,
                    addsym := -1, acc := 0 })
  else if c = 'S' then .ok (anchorStep st env.s0 'S')
  else if c = 's' then .ok (anchorStep st env.s1 's')
  else if c = 'P' then .ok (anchorStep st env.p0 'P')
  else if c = 'p' then .ok (anchorStep st env.p1 'p')
  else if c = 'F' then .ok (anchorStep st 0 'F')
  else if c = 'f' then .ok (anchorStep st env.flen 'f')
  else if c.isDigit then
    .ok { st with acc := st.acc * 10 + (c.toNat - 48),
                  state := if st.state < 3 then 0 else 3 }
  else if c = '~' then
    .ok { st with sum0 := addWrap st.sum0 ((st.acc : Int) * st.addsym),
                  acc := 0, addsym := 1, state := 3 }
  else if c = ',' then
    let s1v := commaSum1 st.state st.acc st.addsym st.sum1 env.flen
    match commaCheckMsg b st.sum0 s1v env.flen with
    | some m => .error ({ st with sum1 := s1v }, m)
    | none =>
      match RangeErrorCheck st.sum0 s1v env.flen with
      | some m => .error ({ st with sum1 := s1v }, m)
      | none =>
        let st2 := if s1v > st.sum0 then { st with range := st.range ++ [(st.sum0, s1v)] }
                   else st
        .ok { st2 with state := 0, acc := 0, sum0 := 0, sum1 := 0, addsym := 1,
                       seg0 := i + 1 }
  else
    .ok st

/-- The `SealDigest` character loop over the remaining characters of `b`. -/
def digestLoopGo (env : DigestEnv) (b : String) :
    List Char → Nat → DigestState → Except (DigestState × String) DigestState
  | [], _, st => .ok st
  | c :: rest, i, st =>
    match digestStep env b i st c with
    | .error e => .error e
    | .ok st2 => digestLoopGo env b rest (i + 1) st2

/-- Outcome of one `SealDigest` evaluation: `@error`, `@digestrange` (as a
list of segment pairs), `@sflags0` and `@sflags1`.  On error the partially
accumulated ranges and flags remain, exactly as in the C code, where
`goto Abort` leaves the fields already stored in the record. -/
structure DigestResult where
  error : Option String
  range : List (Nat × Nat)
  sflags0 : String
  sflags1 : String
  deriving Repr, DecidableEq

/-- Package a loop state and optional error message as a `DigestResult`. -/
def digestOut (st : DigestState) (e : Option String) : DigestResult :=
  { error := e, range := st.range, sflags0 := st.sflags0, sflags1 := st.sflags1 }

/-- End-of-string handling of `SealDigest` (sign-digest.cpp lines 322-353).
State 3 first folds the accumulator into `sum[1]` and becomes state 4;
state 0 accepts; state 4 runs `RangeErrorCheck` and records the final
segment when non-empty; state 5 folds the accumulator and runs
`RangeErrorCheck` but records nothing; any other state is an error. -/
def digestFinish (env : DigestEnv) (b : String) (st0 : DigestState) : DigestResult :=
  let st := if st0.state = 3 then
              { st0 with sum1 := addWrap st0.sum1 ((st0.acc : Int) * st0.addsym), state := 4 }
            else st0
  if st.state = 0 then digestOut st none
  else if st.state = 4 then
    match RangeErrorCheck st.sum0 st.sum1 env.flen with
    | some m => digestOut st (some m)
    | none =>
      if st.sum1 > st.sum0 then
        digestOut { st with range := st.range ++ [(st.sum0, st.sum1)] } none
      else digestOut st none
  else if st.state = 5 then
    let st2 := { st with sum1 := addWrap st.sum1 ((st.acc : Int) * st.addsym) }
    match RangeErrorCheck st2.sum0 st2.sum1 env.flen with
    | some m => digestOut st2 (some m)
    | none => digestOut st2 none
  else
    digestOut st (some ("Invalid range in b=" ++ sqc ++ b ++ sqc ++ " at end of string"))

/-- `SealGetMdfFromString()` recognises a digest algorithm name
(sign-digest.cpp lines 53-60); an absent `da` defaults to sha256. -/
def SealGetMdfKnown : Option String → Bool
  | none => true
  | some d => d = "sha256" ∨ d = "sha224" ∨ d = "sha384" ∨ d = "sha512"

/-- `SealDigest()` (sign-digest.cpp lines 72-375) for a plain file
(`MmapPre == NULL`, the verify path): check the digest algorithm, then run
the `b=` state machine.  The digest itself is the hash of exactly the bytes
of the recorded segments, so the segment list fully determines it. -/
def SealDigest (da : Option String) (b : String) (env : DigestEnv) : DigestResult :=
  if ¬ SealGetMdfKnown da then
    { error := some ("Unknown digest algorithm (da=" ++ da.getD "" ++ ")"),
      range := [], sflags0 := "", sflags1 := "" }
  else
    match digestLoopGo env b b.data 0 digestInit with
    | .error (st, m) => digestOut st (some m)
    | .ok st => digestFinish env b st

/-! ### Claim C3: the worked byte-range example -/

/-- Anchor environment of the spec scenario: `S=100`, `s=200`, file length 1000. -/
def c3env : DigestEnv := { s0 := 100, s1 := 200, p0 := 0, p1 := 0, flen := 1000 }

/-- The spec scenario evaluation `b="F~S,s+5-2~f"`. -/
def c3run : DigestResult := SealDigest (some "sha256") "F~S,s+5-2~f" c3env

/-- C3 counterexample: on `b="F~S,s+5-2~f"` with `@s=[100,200]` and a
1000-byte file, `@sflags0` is "Fs" (the anchors F and s appeared on
left-hand sides), not "F" as the claim states, and `@sflags1` is "Sf",
not "sf". -/
theorem c3_sflags_counterexample :
    c3run.sflags0 = "Fs" ∧ c3run.sflags1 = "Sf" ∧
    c3run.sflags0 ≠ "F" ∧ c3run.sflags1 ≠ "sf" := by
  refine ⟨rfl, rfl, ?_, ?_⟩ <;> decide

/-- C3 amended: the same evaluation stores `@digestrange = [(0,100),(203,1000)]`
and succeeds, with `@sflags0 = "Fs"` and `@sflags1 = "Sf"`. -/
theorem c3_digest_example :
    c3run = { error := none, range := [(0, 100), (203, 1000)],
              sflags0 := "Fs", sflags1 := "Sf" } := by
  rfl

/-! ### Claim C4: default end-of-range -/

/-- Anchor environment with `S=100`, `s=200`, file length 1000. -/
def c4env : DigestEnv := { s0 := 100, s1 := 200, p0 := 0, p1 := 0, flen := 1000 }

/-- C4 counterexample: the default-to-file-length applies only at a `,`.
At end of string, an empty right-hand side leaves `sum[1] = 0`, so
`b="F~"` records no segment at all (it hashes nothing, not the whole
file), and `b="F~S,s~"` aborts with a range error. -/
theorem c4_tail_counterexample :
    (SealDigest (some "sha256") "F~" c4env).range = [] ∧
    (SealDigest (some "sha256") "F~" c4env).range ≠ [(0, 1000)] ∧
    (SealDigest (some "sha256") "F~S,s~" c4env).error =
      some "Invalid range; start of range is after end of range" := by
  refine ⟨rfl, by decide, rfl⟩

/-- C4 amended: a segment terminated by `,` whose right-hand side is in
state 3 with an empty accumulator defaults its end offset to the file
length; the final segment instead adds the (possibly zero) accumulator, so
`b="F~,"` hashes the whole file, `b="F~S,s~,"` hashes everything except the
signature, `b="F~"` hashes nothing, and `b="F~S,s~"` is an error. -/
theorem c4_comma_default :
    (∀ sum1 flen : Nat, ∀ addsym : Int, commaSum1 3 0 addsym sum1 flen = flen) ∧
    SealDigest (some "sha256") "F~," c4env =
      { error := none, range := [(0, 1000)], sflags0 := "F", sflags1 := "" } ∧
    SealDigest (some "sha256") "F~S,s~," c4env =
      { error := none, range := [(0, 100), (200, 1000)], sflags0 := "Fs", sflags1 := "S" } ∧
    SealDigest (some "sha256") "F~" c4env =
      { error := none, range := [], sflags0 := "F", sflags1 := "" } ∧
    (SealDigest (some "sha256") "F~S,s~" c4env).error ≠ none := by
  refine ⟨fun sum1 flen addsym => rfl, rfl, rfl, rfl, by decide⟩

/-! ### Claim C7: segment acceptance -/

/-- Anchor environment for a 10-byte file with no signature offsets. -/
def c7env : DigestEnv := { s0 := 0, s1 := 0, p0 := 0, p1 := 0, flen := 10 }

/-- C7 counterexample: the final segment of `b="f+5~f+5"` on a 10-byte file
evaluates to `lhs = rhs = 15`, which is beyond the end of the file, yet the
evaluation finishes without `@error` (RangeErrorCheck admits every empty
range before its bounds checks).  The claim demands `@error` for any
segment with `lhs > L`. -/
theorem c7_counterexample :
    (SealDigest (some "sha256") "f+5~f+5" c7env).error = none ∧
    (SealDigest (some "sha256") "f+5~f+5" c7env).range = [] ∧
    RangeErrorCheck 15 15 10 = none := by
  refine ⟨rfl, rfl, rfl⟩

/-- C7 amended: acceptance depends on the segment position.  A segment
terminated by `,` is accepted without error exactly when
`lhs ≤ rhs ≤ file-length`; the final segment of the expression is accepted
exactly when it is empty (`lhs = rhs`, with no bounds requirement at all)
or `lhs < rhs ≤ file-length`.  The same values `lhs = rhs = 15` that pass
as a final segment are rejected when the segment is followed by `,`. -/
theorem c7_acceptance :
    (∀ (b : String) (s0 s1v L : Nat),
      (commaCheckMsg b s0 s1v L = none ∧ RangeErrorCheck s0 s1v L = none) ↔
        (s0 ≤ s1v ∧ s1v ≤ L)) ∧
    (∀ s0 s1v L : Nat,
      RangeErrorCheck s0 s1v L = none ↔ (s0 = s1v ∨ (s0 < s1v ∧ s1v ≤ L))) ∧
    (SealDigest (some "sha256") "f+5~f+5" c7env).error = none ∧
    (SealDigest (some "sha256") "f+5~f+5,F~f" c7env).error ≠ none := by
  have hrec : ∀ s0 s1v L : Nat,
      RangeErrorCheck s0 s1v L = none ↔ (s0 = s1v ∨ (s0 < s1v ∧ s1v ≤ L)) := by
    intro s0 s1v L
    unfold RangeErrorCheck
    split_ifs with h1 h2 h3 h4 <;> simp <;> omega
  refine ⟨?_, hrec, rfl, by decide⟩
  intro b s0 s1v L
  have hcomma : commaCheckMsg b s0 s1v L = none ↔ (s0 ≤ s1v ∧ s0 ≤ L ∧ s1v ≤ L) := by
    unfold commaCheckMsg
    split_ifs with h <;> simp <;> omega
  rw [hcomma, hrec]
  omega

/-! ## Field store (src/seal.cpp) and the store-level digest

The `sealfield` chain is an insertion-ordered association list with unique
keys.  `SealAlloc`/`SealSetText` replace an existing value in place and
prepend a new key; `SealDel` removes every entry of a key; `SealSearch`
finds the first entry. -/

/-- A field value: text, a `size_t` array, or an abstract binary digest
(the hash is fully determined by the digest algorithm and the hashed byte
segments, so it is carried in that form). -/
inductive FieldVal
  | txt (s : String)
  | iarr (l : List Nat)
  | digestv (da : String) (segments : List (Nat × Nat))
  deriving Repr, DecidableEq

/-- A `sealfield` chain. -/
abbrev Store : Type := List (String × FieldVal)

/-- `SealSearch()`: first entry with the key. -/
def storeGet (st : Store) (k : String) : Option FieldVal :=
  match st with
  | [] => none
  | (k2, v) :: rest => if k2 = k then some v else storeGet rest k

/-- `SealDel()`: remove every entry with the key. -/
def storeDel (st : Store) (k : String) : Store :=
  match st with
  | [] => []
  | (k2, v) :: rest => if k2 = k then storeDel rest k else (k2, v) :: storeDel rest k

/-- `SealAlloc()`-style write: replace in place when the key exists,
otherwise prepend. -/
def storeSet (st : Store) (k : String) (v : FieldVal) : Store :=
  match st with
  | [] => [(k, v)]
  | (k2, w) :: rest => if k2 = k then (k, v) :: rest else (k2, w) :: storeSet rest k v

/-- `SealGetText()` restricted to text values. -/
def storeTxt (st : Store) (k : String) : Option String :=
  match storeGet st k with
  | some (.txt s) => some s
  | _ => none

/-- `SealGetIarray()` element read (zero-filled out of range). -/
def storeIdx (st : Store) (k : String) (i : Nat) : Nat :=
  match storeGet st k with
  | some (.iarr l) => l.getD i 0
  | _ => 0

/-- Flatten the segment list into the flat `size_t` array stored in
`@digestrange` (`SealAddI` twice per segment). -/
def flattenRanges : List (Nat × Nat) → List Nat
  | [] => []
  | (a, b) :: rest => a :: b :: flattenRanges rest

/-- The six `SealDel` calls at the top of `SealDigest()`
(sign-digest.cpp lines 84-89). -/
def sealDigestClear (st : Store) : Store :=
  storeDel (storeDel (storeDel (storeDel (storeDel (storeDel st
    "@error") "@digestrange") "@digest1") "@digest2") "@sflags0") "@sflags1"

/-- Store the outcome of the byte-range machine back into the record:
the accumulated flags (`SealAddC` creates the field on the first append,
so empty flags stay deleted), the segment list (`SealAddI` likewise), and
either `@error` or the binary digest `@digest1`. -/
def sealDigestApply (st1 : Store) (da : Option String) (r : DigestResult) : Store :=
  let st2 := if r.sflags0 ≠ "" then storeSet st1 "@sflags0" (.txt r.sflags0) else st1
  let st3 := if r.sflags1 ≠ "" then storeSet st2 "@sflags1" (.txt r.sflags1) else st2
  let st4 := if r.range ≠ [] then storeSet st3 "@digestrange" (.iarr (flattenRanges r.range)) else st3
  match r.error with
  | some m => storeSet st4 "@error" (.txt m)
  | none => storeSet st4 "@digest1" (.digestv (da.getD "sha256") r.range)

/-- `SealDigest()` at the store level (sign-digest.cpp lines 72-375):
delete `@error`, `@digestrange`, `@digest1`, `@digest2`, `@sflags0` and
`@sflags1`; read `@s`, `@p`, `da` and `b` from the record; run the
byte-range machine; then store the results.  `@sflags` is never touched. -/
def SealDigestStore (st : Store) (flen : Nat) : Store :=
  sealDigestApply (sealDigestClear st) (storeTxt (sealDigestClear st) "da")
    (SealDigest (storeTxt (sealDigestClear st) "da")
      ((storeTxt (sealDigestClear st) "b").getD "")
      { s0 := storeIdx (sealDigestClear st) "@s" 0,
        s1 := storeIdx (sealDigestClear st) "@s" 1,
        p0 := storeIdx (sealDigestClear st) "@p" 0,
        p1 := storeIdx (sealDigestClear st) "@p" 1, flen := flen })

/-- Reading a key is unaffected by writing a different key. -/
theorem storeGet_set_ne (st : Store) (k k2 : String) (v : FieldVal) (h : k ≠ k2) :
    storeGet (storeSet st k v) k2 = storeGet st k2 := by
  induction st with
  | nil => simp [storeSet, storeGet, h]
  | cons hd tl ih =>
    obtain ⟨k3, w⟩ := hd
    by_cases h3 : k3 = k
    · subst h3
      simp [storeSet, storeGet, h]
    · simp [storeSet, storeGet, h3, ih]

/-- Reading a key is unaffected by deleting a different key. -/
theorem storeGet_del_ne (st : Store) (k k2 : String) (h : k ≠ k2) :
    storeGet (storeDel st k) k2 = storeGet st k2 := by
  induction st with
  | nil => simp [storeDel]
  | cons hd tl ih =>
    obtain ⟨k3, w⟩ := hd
    by_cases h3 : k3 = k
    · subst h3
      simp [storeDel, storeGet, h, ih]
    · simp [storeDel, storeGet, h3, ih]

/-- The digest write-back step never touches `@sflags`. -/
theorem sealDigestApply_sflags (st1 : Store) (da : Option String) (r : DigestResult) :
    storeGet (sealDigestApply st1 da r) "@sflags" = storeGet st1 "@sflags" := by
  obtain ⟨e, rg, f0, f1⟩ := r
  unfold sealDigestApply
  cases e <;>
    dsimp only [] <;>
    split_ifs <;>
    simp only [storeGet_set_ne _ _ _ _ (by decide : "@error" ≠ "@sflags"),
      storeGet_set_ne _ _ _ _ (by decide : "@digest1" ≠ "@sflags"),
      storeGet_set_ne _ _ _ _ (by decide : "@sflags0" ≠ "@sflags"),
      storeGet_set_ne _ _ _ _ (by decide : "@sflags1" ≠ "@sflags"),
      storeGet_set_ne _ _ _ _ (by decide : "@digestrange" ≠ "@sflags")]

/-- The six deletions never touch `@sflags`. -/
theorem sealDigestClear_sflags (st : Store) :
    storeGet (sealDigestClear st) "@sflags" = storeGet st "@sflags" := by
  unfold sealDigestClear
  simp only [storeGet_del_ne _ _ _ (by decide : "@sflags1" ≠ "@sflags"),
    storeGet_del_ne _ _ _ (by decide : "@sflags0" ≠ "@sflags"),
    storeGet_del_ne _ _ _ (by decide : "@digest2" ≠ "@sflags"),
    storeGet_del_ne _ _ _ (by decide : "@digest1" ≠ "@sflags"),
    storeGet_del_ne _ _ _ (by decide : "@digestrange" ≠ "@sflags"),
    storeGet_del_ne _ _ _ (by decide : "@error" ≠ "@sflags")]

/-! ### Claim C5: `@sflags` after a digest -/

/-- A concrete record store before digesting: `@sflags` as initialized by
main (a single space), byte range `b="F~f"`, `da=sha256`, `@s=[100,200,1]`,
`@p=[0,0]`. -/
def c5store : Store :=
  [("@sflags", .txt " "), ("b", .txt "F~f"), ("da", .txt "sha256"),
   ("@s", .iarr [100, 200, 1]), ("@p", .iarr [0, 0])]

/-- C5: after a successful digest evaluation `@sflags0="F"` and
`@sflags1="f"`, but `@sflags` still holds its prior value " " - no code
path concatenates the two flag fields into `@sflags` (the initialization
comment in sealtool.cpp line 457 calls it "set by SealDigest()", yet
`SealDigest` never writes it), so the claimed equality fails on every
evaluation with non-empty flags.  The second half is the general fact:
`SealDigest` leaves `@sflags` exactly as it was. -/
theorem c5_sflags_not_concatenated :
    (storeTxt (SealDigestStore c5store 1000) "@sflags0" = some "F" ∧
     storeTxt (SealDigestStore c5store 1000) "@sflags1" = some "f" ∧
     storeTxt (SealDigestStore c5store 1000) "@sflags" = some " " ∧
     some " " ≠ some ("F" ++ "f")) ∧
    (∀ (st : Store) (flen : Nat),
      storeGet (SealDigestStore st flen) "@sflags" = storeGet st "@sflags") := by
  constructor
  · exact ⟨rfl, rfl, rfl, by decide⟩
  · intro st flen
    unfold SealDigestStore
    rw [sealDigestApply_sflags, sealDigestClear_sflags]

/-! ## SealVerifyFinal (src/sign-verify.cpp lines 792-801) -/

/-- `SealGetCindex()` on an optional record: `SealGetGindex` returns NULL
for a NULL chain or a missing field, which `SealGetCindex` maps to 0; for
a text field it is the i-th byte when in range, else 0. -/
def SealGetCindex (rec : Option Store) (k : String) (i : Nat) : Nat :=
  match rec with
  | none => 0
  | some st =>
    match storeGet st k with
    | some (.txt s) => if i < s.data.length then (s.data.getD i (Char.ofNat 0)).toNat else 0
    | _ => 0

/-- Output of `SealVerifyFinal`: whether the "do not finalize" warning was
printed, and the boolean return value. -/
structure VerifyFinalOut where
  warned : Bool
  result : Bool
  deriving Repr, DecidableEq

/-- `SealVerifyFinal()` (sign-verify.cpp lines 792-801): a non-NULL record
chain returns false immediately (`if (Rec) return false`); with a NULL
chain, `SealGetCindex(NULL,"@sflags",1)` is 0, so the warning prints and
false is returned; the trailing `return true` is unreachable. -/
def SealVerifyFinal (rec : Option Store) : VerifyFinalOut :=
  if rec.isSome then { warned := false, result := false }
  else if SealGetCindex rec "@sflags" 1 = 0 then { warned := true, result := false }
  else { warned := false, result := true }

/-- C10: `SealVerifyFinal` returns false on every input, and prints its
warning exactly when the record chain is NULL; in particular a file whose
records were verified (non-NULL chain) never triggers the end-of-file
finalization warning. -/
theorem c10_verify_final (rec : Option Store) :
    (SealVerifyFinal rec).result = false ∧
    ((SealVerifyFinal rec).warned = true ↔ rec = none) := by
  cases rec <;> simp [SealVerifyFinal, SealGetCindex]

/-! ## Revocation check (src/sign-verify.cpp lines 410-477) -/

/-- ASCII lower-casing of one byte, as done by `tolower`/`strcasecmp`. -/
def asciiLower (c : Char) : Char :=
  if 65 ≤ c.toNat ∧ c.toNat ≤ 90 then Char.ofNat (c.toNat + 32) else c

/-- The digit-comparison loop of `SealValidateRevoke` (sign-verify.cpp
lines 452-465) over the remaining characters of `r` and `@sigdate`.  It
returns the final value of `IsInvalid`: non-digits in `r` are skipped; a
non-digit in the signature date revokes; a smaller `r` digit revokes; a
larger `r` digit ends the scan as valid; if `r` runs out first (or both
run out) the record is revoked. -/
def revokeLoop : List Char → List Char → Bool
  | [], [] => true
  | [], _ :: _ => true
  | _ :: _, [] => false
  | c :: rt, d :: dt =>
    if ¬ c.isDigit then revokeLoop rt (d :: dt)
    else if ¬ d.isDigit then true
    else if c < d then true
    else if c > d then false
    else revokeLoop rt dt

/-- `SealValidateRevoke()` (sign-verify.cpp lines 410-477), as a function of
the values read from the record: `r` (revocation date), `@sigdate`, `s`
(the signature) and `@public`.  Returns the resulting `@error`. -/
def SealValidateRevoke (r sigdate sig public : Option String) : Option String :=
  if sig = none ∨ sig = some "" then some "no signature found"
  else
    let invalid :=
      match r, sigdate with
      | some rv, some sd => revokeLoop rv.data sd.data
      | some _, none => true
      | none, _ =>
        match public with
        | none => false
        | some p =>
          if p = "" then true
          else if p.data.map asciiLower = "revoke".data then true
          else false
    if invalid then some "public key revoked" else none

/-- Plain lexicographic string comparison over the common prefix: true when
the first list is a prefix of the second or its first differing character
is smaller. -/
def lexLE : List Char → List Char → Bool
  | [], _ => true
  | _ :: _, [] => false
  | c :: ct, d :: dt => if c < d then true else if d < c then false else lexLE ct dt

/-- On all-digit strings the revocation loop computes exactly the
lexicographic less-or-equal comparison. -/
theorem revokeLoop_eq_lexLE (l1 : List Char) :
    ∀ l2 : List Char, (∀ c ∈ l1, c.isDigit = true) → (∀ c ∈ l2, c.isDigit = true) →
      revokeLoop l1 l2 = lexLE l1 l2 := by
  induction l1 with
  | nil => intro l2 _ _; cases l2 <;> rfl
  | cons c ct ih =>
    intro l2 h1 h2
    cases l2 with
    | nil => rfl
    | cons d dt =>
      have hc : c.isDigit = true := h1 c (by simp)
      have hd : d.isDigit = true := h2 d (by simp)
      show revokeLoop (c :: ct) (d :: dt) = lexLE (c :: ct) (d :: dt)
      unfold revokeLoop lexLE
      simp only [hc, hd, not_true, if_false, Bool.false_eq_true, not_false_iff, if_true,
        gt_iff_lt]
      rcases lt_trichotomy c d with h | h | h
      · simp [h]
      · subst h
        simp only [lt_irrefl, if_false]
        exact ih dt (fun x hx => h1 x (by simp [hx])) (fun x hx => h2 x (by simp [hx]))
      · simp [h, not_lt_of_gt h]

/-- C6: with `r` present, a record without `@sigdate` is revoked; and when
both `r` and `@sigdate` consist of digits, the record is revoked exactly
when `r` is lexicographically less than or equal to `@sigdate` over their
common prefix, i.e. `r` is the no-longer-trusted-after moment. -/
theorem c6_revocation (rv sd sig : String) (pub : Option String)
    (h1 : ∀ c ∈ rv.data, c.isDigit = true) (h2 : ∀ c ∈ sd.data, c.isDigit = true)
    (h3 : sig ≠ "") :
    (SealValidateRevoke (some rv) (some sd) (some sig) pub = some "public key revoked" ↔
      lexLE rv.data sd.data = true) ∧
    SealValidateRevoke (some rv) none (some sig) pub = some "public key revoked" := by
  unfold SealValidateRevoke
  have hsig : ¬((some sig : Option String) = none ∨ (some sig : Option String) = some "") := by
    simp [h3]
  rw [if_neg hsig, if_neg hsig]
  constructor
  · show (if revokeLoop rv.data sd.data = true then some "public key revoked" else none) =
        some "public key revoked" ↔ lexLE rv.data sd.data = true
    rw [revokeLoop_eq_lexLE rv.data sd.data h1 h2]
    cases h : lexLE rv.data sd.data <;> simp [h]
  · show (if true = true then some "public key revoked" else none) = some "public key revoked"
    rfl

/-- C6 witness: with TXT `r="20240601"`, a signature dated 20240501... is
not revoked and one dated 20240701... is revoked. -/
theorem c6_revocation_witness :
    SealValidateRevoke (some "20240601") (some "20240501000000") (some "x") none ≠
      some "public key revoked" ∧
    SealValidateRevoke (some "20240601") (some "20240701000000") (some "x") none =
      some "public key revoked" := by
  have hA := (c6_revocation "20240601" "20240501000000" "x" none
    (by decide) (by decide) (by decide)).1
  have hB := (c6_revocation "20240601" "20240701000000" "x" none
    (by decide) (by decide) (by decide)).1
  constructor
  · intro hc
    have := hA.mp hc
    exact absurd this (by decide)
  · exact hB.mpr (by decide)

/-! ## Signing: placeholder size (src/sign-local.cpp, src/sign-sign.cpp) -/

/-- The padding step of `SealSignLocal()` (sign-local.cpp lines 437-444):
the encoded signature `@signatureenc` is right-padded with spaces up to
`@sigsize` bytes (no truncation happens when it is already longer). -/
def SealSignLocalPad (sigenc : String) (sigsize : Nat) : String :=
  sigenc ++ String.mk (List.replicate (sigsize - sigenc.data.length) (Char.ofNat 32))

/-- The message printed by `SealSign()` before `exit(0x80)` when the
signature size check fails (sign-sign.cpp line 136). -/
def sealSignAbortMessage : String :=
  " ERROR: signature size changed while writing. Aborting.\n"

/-- The final step of `SealSign()` (sign-sign.cpp lines 129-141): fetch
`@signatureenc`; if it is missing or its length differs from the reserved
region `@s[1]-@s[0]`, abort the process with code 0x80; otherwise
overwrite `file[s0..s1)` with the signature bytes. -/
def SealSignFinalize (file : List Nat) (sig : Option (List Nat)) (s0 s1 : Nat) :
    Except (Nat × String) (List Nat) :=
  match sig with
  | none => .error (0x80, sealSignAbortMessage)
  | some sg =>
    if sg.length + s0 ≠ s1 then .error (0x80, sealSignAbortMessage)
    else .ok (file.take s0 ++ sg ++ file.drop s1)

/-- Substring test over character lists. -/
def hasSubList (pat : List Char) : List Char → Bool
  | [] => pat.isEmpty
  | c :: rest => pat.isPrefixOf (c :: rest) || hasSubList pat rest

/-- C2 counterexample: the abort message of the size check in `SealSign` is
" ERROR: signature size changed while writing. Aborting." - it does not
contain the claimed text "record size changed while writing" at all. -/
theorem c2_message_counterexample :
    sealSignAbortMessage = " ERROR: signature size changed while writing. Aborting.\n" ∧
    hasSubList "record size changed while writing".data sealSignAbortMessage.data = false ∧
    hasSubList "signature size changed while writing".data sealSignAbortMessage.data = true := by
  refine ⟨rfl, by decide, by decide⟩

/-- C2 amended: the local signer right-pads the encoded signature with
spaces to exactly `@sigsize` bytes; `SealSign` aborts with exit code 0x80
and the message "signature size changed while writing" when the signature
is missing or its length differs from the reserved region `@s[1]-@s[0]`;
and whenever the check passes, overwriting the reserved region preserves
the byte length of the file, so the final record has byte-identical length
to the placeholder record. -/
theorem c2_placeholder_size :
    (∀ (sigenc : String) (n : Nat), sigenc.data.length ≤ n →
        (SealSignLocalPad sigenc n).data.length = n) ∧
    (∀ (file : List Nat) (s0 s1 : Nat),
        SealSignFinalize file none s0 s1 = .error (0x80, sealSignAbortMessage)) ∧
    (∀ (file sg : List Nat) (s0 s1 : Nat), sg.length + s0 ≠ s1 →
        SealSignFinalize file (some sg) s0 s1 = .error (0x80, sealSignAbortMessage)) ∧
    (∀ (file : List Nat) (sig : Option (List Nat)) (s0 s1 : Nat) (out : List Nat),
        s1 ≤ file.length →
        SealSignFinalize file sig s0 s1 = .ok out →
        out.length = file.length) := by
  refine ⟨?_, ?_, ?_, ?_⟩
  · intro sigenc n h
    simp only [SealSignLocalPad, String.data_append]
    show (sigenc.data ++ List.replicate (n - sigenc.data.length) (Char.ofNat 32)).length = n
    rw [List.length_append, List.length_replicate]
    omega
  · intro file s0 s1
    rfl
  · intro file sg s0 s1 h
    simp [SealSignFinalize, h]
  · intro file sig s0 s1 out hs1 hok
    match sig with
    | none => exact absurd hok (by simp [SealSignFinalize])
    | some sg =>
      simp only [SealSignFinalize] at hok
      by_cases hlen : sg.length + s0 = s1
      · rw [if_neg (fun h => h hlen)] at hok
        have hout : out = file.take s0 ++ sg ++ file.drop s1 := by
          injection hok with h
          exact h.symm
        subst hout
        rw [List.length_append, List.length_append, List.length_take, List.length_drop]
        omega
      · rw [if_pos hlen] at hok
        exact absurd hok (by simp)

/-- C2 witness: writing a 2-byte signature into the reserved region [1,3) of
a 5-byte file succeeds and keeps the file at 5 bytes; padding "ab" to 5
gives 5 bytes. -/
theorem c2_placeholder_size_witness :
    (SealSignLocalPad "ab" 5).data.length = 5 ∧
    ∃ out : List Nat, SealSignFinalize [1, 2, 3, 4, 5] (some [9, 9]) 1 3 = .ok out ∧
      out.length = 5 := by
  refine ⟨c2_placeholder_size.1 "ab" 5 (by decide), ⟨[1, 9, 9, 4, 5], rfl, ?_⟩⟩
  exact c2_placeholder_size.2.2.2 [1, 2, 3, 4, 5] (some [9, 9]) 1 3 [1, 9, 9, 4, 5]
    (by decide) rfl

/-! ## Exit-code accumulation (src/sealtool.cpp lines 620-718) -/

/-- Outcome of processing one command-line file in the verify loop of
`main()`: the memory map failed ("Unknown file ... Skipping"), the format
probe failed ("Unknown file format"), or a format walker ran and left
`@s[2]` signatures, with the per-record `@error` messages that
`SealVerify` printed. -/
inductive FileResult
  | unknownFile
  | unknownFormat
  | processed (sigCount : Nat) (recMsgs : List (Option String))
  deriving Repr, DecidableEq

/-- The bits that one file contributes to `ReturnCode` (sealtool.cpp lines
641-706): 0x02 for an unknown format, 0x02 when no signature was found
(`@s[2]==0`), and nothing otherwise - the per-record verification outcomes
in `SealVerify` are only printed, never OR'd into `ReturnCode`. -/
def fileReturnBits : FileResult → Nat
  | .unknownFile => 0
  | .unknownFormat => 2
  | .processed n _ => if n = 0 then 2 else 0

/-- The process exit code of a verify batch: `ReturnCode` starts at 0 and
each file ORs in its bits (sealtool.cpp lines 627-718). -/
def sealtoolReturnCode (files : List FileResult) : Nat :=
  files.foldl (fun rc f => rc ||| fileReturnBits f) 0

/-- Folding file bits keeps the accumulator in the set 0 or 2. -/
theorem sealtoolReturnCode_aux (files : List FileResult) :
    ∀ a : Nat, (a = 0 ∨ a = 2) →
      (files.foldl (fun rc f => rc ||| fileReturnBits f) a = 0 ∨
       files.foldl (fun rc f => rc ||| fileReturnBits f) a = 2) := by
  induction files with
  | nil => intro a h; simpa using h
  | cons f rest ih =>
    intro a h
    apply ih
    have hf : fileReturnBits f = 0 ∨ fileReturnBits f = 2 := by
      cases f with
      | unknownFile => exact Or.inl rfl
      | unknownFormat => exact Or.inr rfl
      | processed n msgs =>
        by_cases hn : n = 0 <;> simp [fileReturnBits, hn]
    rcases h with h | h <;> rcases hf with hf | hf <;>
      simp [h, hf]

/-- C1: the verify exit code is never the claimed OR of verdict bits.  A
batch consisting of one file whose single record failed cryptographic
verification ("signature mismatch") exits with code 0, not 0x01; in fact
the exit code of every batch is 0 or 2: bits 0x01, 0x04, 0x08 and 0x10 are
never set anywhere (0x01 is nevertheless documented in sealtool.cpp's own
header comment and Usage text). -/
theorem c1_exit_code_only_bit2 :
    sealtoolReturnCode [.processed 1 [some "signature mismatch"]] = 0 ∧
    sealtoolReturnCode [.processed 1 [some "signature mismatch"]] ≠ 1 ∧
    ∀ files : List FileResult,
      sealtoolReturnCode files = 0 ∨ sealtoolReturnCode files = 2 := by
  refine ⟨rfl, by decide, ?_⟩
  intro files
  exact sealtoolReturnCode_aux files 0 (Or.inl rfl)

/-! ## DNS cache lookup (src/seal-dns.cpp) -/

/-- One `dnscache` entry: the domain it was cached under, the raw TXT text
(absent for the negative marker inserted after a failed lookup), and the
parsed record (absent for the negative marker or an unparsable reply). -/
structure DnsEntry where
  domain : String
  txt : Option String
  recv : Option Store
  deriving Repr, DecidableEq

/-- `strcasecmp`-equality of two strings (ASCII case folding). -/
def eqCaseless (a b : String) : Bool := a.data.map asciiLower == b.data.map asciiLower

/-- The first cache walk of `SealDNSGet` (seal-dns.cpp lines 326-335):
return the cache suffix starting at the first case-insensitive match of the
requested domain. -/
def findCacheSuffix (domain : String) : List DnsEntry → Option (List DnsEntry)
  | [] => none
  | e :: rest =>
    if eqCaseless domain e.domain then some (e :: rest) else findCacheSuffix domain rest

/-- The `DefaultDomain` tracking of the same walk: the cache suffix starting
at the first entry cached under the synthetic domain "@default". -/
def findDefaultSuffix : List DnsEntry → Option (List DnsEntry)
  | [] => none
  | e :: rest =>
    if e.domain = "@default" then some (e :: rest) else findDefaultSuffix rest

/-- The final walk of `SealDNSGet` (seal-dns.cpp lines 360-368): starting
from the matched entry, skip entries of other domains, abort on an entry
with no parsed record, count down the requested record number, and return
the n-th matching record. -/
def dnsWalk (dnsname : String) : List DnsEntry → Nat → Option Store
  | [], _ => none
  | e :: rest, n =>
    match e.recv with
    | none => none
    | some r =>
      if ¬ eqCaseless e.domain dnsname then dnsWalk dnsname rest n
      else if n > 0 then dnsWalk dnsname rest (n - 1)
      else some r

/-- `SealDNSGet()` (seal-dns.cpp lines 314-372).  The process-wide cache is
passed explicitly; `net` abstracts `_SealDNSnet` (the entries it prepends
to the cache and its `InsertCount` return).  The result pairs the returned
record with a flag recording whether a network query was issued.

Control flow, mirroring the C: a negative record-number or missing domain
returns absent; the first cache walk returns absent at a negative-cache
match; then - regardless of any cache hit - the `no-net` option returns
absent; a cache miss without a default issues the network query; finally
the matched suffix is walked for the n-th record. -/
def SealDNSGet (cache : List DnsEntry) (net : String → List DnsEntry × Nat)
    (argsDomain : Option String) (noNet : Bool) (nrec : Int) : Option Store × Bool :=
  if nrec < 0 then (none, false)
  else
    match argsDomain with
    | none => (none, false)
    | some domain =>
      match findCacheSuffix domain cache with
      | some [] => (none, false)
      | some (e :: rest) =>
        if e.txt = none then (none, false)
        else if noNet then (none, false)
        else (dnsWalk e.domain (e :: rest) nrec.toNat, false)
      | none =>
        if noNet then (none, false)
        else
          match findDefaultSuffix cache with
          | some [] => (none, false)
          | some (d :: drest) => (dnsWalk d.domain (d :: drest) nrec.toNat, false)
          | none =>
            let r := net domain
            let cache2 := r.1 ++ cache
            if r.2 = 0 then (none, true)
            else
              match findCacheSuffix domain cache2 with
              | none => (none, true)
              | some [] => (none, true)
              | some (e :: rest) =>
                if e.recv = none then (none, true)
                else (dnsWalk e.domain (e :: rest) nrec.toNat, true)

/-! ### Claim C8: cache-first lookup and no-net -/

/-- A parsed TXT record for the cache examples. -/
def c8rec : Store := [("seal", .txt "1"), ("p", .txt "AAAA")]

/-- A cache holding one TXT record for example.com. -/
def c8cache : List DnsEntry :=
  [{ domain := "example.com", txt := some "seal=1 p=AAAA", recv := some c8rec }]

/-- A network oracle that finds nothing (never reached in these theorems). -/
def c8netNone : String → List DnsEntry × Nat := fun _ => ([], 0)

/-- C8 counterexample: with `no-net` set and the domain cached (TXT record
present), the lookup returns absent - the cached record is not returned,
because the `no-net` test sits after the cache walk and applies even on a
cache hit.  Without `no-net` the same lookup returns the cached record with
no network query. -/
theorem c8_nonet_counterexample :
    SealDNSGet c8cache c8netNone (some "example.com") true 0 = (none, false) ∧
    SealDNSGet c8cache c8netNone (some "example.com") false 0 = (some c8rec, false) := by
  constructor <;> rfl

/-- C8 amended: (1) the cache is consulted first and a cached TXT match is
returned without a network query, but only when `no-net` is not set;
(2) when `no-net` is set every lookup returns absent, regardless of what is
cached; (3) a failed lookup is cached as an entry with no TXT, and a repeat
lookup that hits it short-circuits to absent without querying the
network. -/
theorem c8_cache_semantics :
    (∀ (cache : List DnsEntry) (net : String → List DnsEntry × Nat)
       (domain : String) (n : Int) (e : DnsEntry) (rest : List DnsEntry),
       0 ≤ n →
       findCacheSuffix domain cache = some (e :: rest) →
       e.txt ≠ none →
       SealDNSGet cache net (some domain) false n =
         (dnsWalk e.domain (e :: rest) n.toNat, false)) ∧
    (∀ (cache : List DnsEntry) (net : String → List DnsEntry × Nat)
       (d : Option String) (n : Int),
       SealDNSGet cache net d true n = (none, false)) ∧
    (∀ (cache : List DnsEntry) (net : String → List DnsEntry × Nat)
       (domain : String) (n : Int) (e : DnsEntry) (rest : List DnsEntry)
       (noNet : Bool),
       0 ≤ n →
       findCacheSuffix domain cache = some (e :: rest) →
       e.txt = none →
       SealDNSGet cache net (some domain) noNet n = (none, false)) := by
  refine ⟨?_, ?_, ?_⟩
  · intro cache net domain n e rest hn hfind htxt
    unfold SealDNSGet
    rw [if_neg (by omega)]
    dsimp only
    rw [hfind]
    simp [htxt]
  · intro cache net d n
    unfold SealDNSGet
    split
    · rfl
    · match d with
      | none => rfl
      | some domain =>
        dsimp only
        match hf : findCacheSuffix domain cache with
        | none => simp
        | some [] => simp
        | some (e :: rest) =>
          dsimp only
          split
          · rfl
          · simp
  · intro cache net domain n e rest noNet hn hfind htxt
    unfold SealDNSGet
    rw [if_neg (by omega)]
    dsimp only
    rw [hfind]
    simp [htxt]

/-- C8 witness: the concrete cache above satisfies the hypotheses; reading
record number 0 for example.com without `no-net` returns the cached record
and issues no network query. -/
theorem c8_cache_semantics_witness :
    SealDNSGet c8cache c8netNone (some "example.com") false 0 =
      (dnsWalk "example.com" c8cache 0, false) ∧
    dnsWalk "example.com" c8cache 0 = some c8rec := by
  constructor
  · exact c8_cache_semantics.1 c8cache c8netNone "example.com" 0
      (c8cache.get ⟨0, by decide⟩) [] (by decide) rfl (by decide)
  · rfl

/-! ## Codecs (src/seal-parse.cpp)

All codecs operate on byte buffers, modelled as `List Nat` with entries
below 256. -/

/-- C `isdigit` on a byte. -/
def isDigitB (n : Nat) : Bool := 48 ≤ n ∧ n ≤ 57

/-- C `isupper` on a byte. -/
def isUpperB (n : Nat) : Bool := 65 ≤ n ∧ n ≤ 90

/-- C `islower` on a byte. -/
def isLowerB (n : Nat) : Bool := 97 ≤ n ∧ n ≤ 122

/-- C `isxdigit` on a byte. -/
def isXDigitB (n : Nat) : Bool := isDigitB n || (65 ≤ n ∧ n ≤ 70) || (97 ≤ n ∧ n ≤ 102)

/-- C `isprint` on a byte (C locale: 0x20 to 0x7e). -/
def isPrintB (n : Nat) : Bool := 32 ≤ n ∧ n ≤ 126

/-- Value of a hex digit as computed in `SealHexDecode` (seal-parse.cpp
lines 278-280): digit, else upper, else lower. -/
def hexDigitVal (n : Nat) : Nat :=
  if isDigitB n then n - 48
  else if isUpperB n then n - 65 + 10
  else if isLowerB n then n - 97 + 10
  else 0

/-- One hex digit character (byte) as printed by `snprintf("%02x")` resp.
`"%02X"` in `SealHexEncode`. -/
def hexChar (isUpper : Bool) (d : Nat) : Nat :=
  if d < 10 then 48 + d else (if isUpper then 65 else 97) + d - 10

/-- `SealHexEncode()` (seal-parse.cpp lines 301-325): each byte becomes two
hex digits (upper or lower variant). -/
def SealHexEncode (isUpper : Bool) : List Nat → List Nat
  | [] => []
  | x :: rest =>
    hexChar isUpper (x % 256 / 16) :: hexChar isUpper (x % 256 % 16) :: SealHexEncode isUpper rest

/-- The pair loop of `SealHexDecode()`: every two hex digits produce the
byte `(c<<4|v) & 0xff`; an invalid character or odd length yields `none`,
which the caller maps to the empty output (`j=0`). -/
def hexPairsDecode : List Nat → Option (List Nat)
  | [] => some []
  | [_] => none
  | c1 :: c2 :: rest =>
    if isXDigitB c1 && isXDigitB c2 then
      match hexPairsDecode rest with
      | some out => some ((hexDigitVal c1 * 16 + hexDigitVal c2) % 256 :: out)
      | none => none
    else none

/-- `SealHexDecode()` (seal-parse.cpp lines 267-294): invalid or odd-length
input decodes to the empty buffer. -/
def SealHexDecode (s : List Nat) : List Nat := (hexPairsDecode s).getD []

/-- Hex digits produced by the encoder are valid and decode to their
value. -/
theorem hexChar_lookup : ∀ d ∈ List.range 16,
    (isXDigitB (hexChar true d) = true ∧ hexDigitVal (hexChar true d) = d) ∧
    (isXDigitB (hexChar false d) = true ∧ hexDigitVal (hexChar false d) = d) := by
  decide

/-- The hex round trip at the pair level. -/
theorem hexPairsDecode_encode (isUpper : Bool) (b : List Nat) (hb : ∀ x ∈ b, x < 256) :
    hexPairsDecode (SealHexEncode isUpper b) = some b := by
  induction b with
  | nil => rfl
  | cons x rest ih =>
    have hx : x < 256 := hb x (by simp)
    have hhi : x % 256 / 16 ∈ List.range 16 := by
      rw [List.mem_range]
      omega
    have hlo : x % 256 % 16 ∈ List.range 16 := by
      rw [List.mem_range]
      omega
    have h1 := hexChar_lookup _ hhi
    have h2 := hexChar_lookup _ hlo
    show hexPairsDecode (hexChar isUpper (x % 256 / 16) :: hexChar isUpper (x % 256 % 16) ::
      SealHexEncode isUpper rest) = some (x :: rest)
    unfold hexPairsDecode
    cases isUpper with
    | true =>
      rw [if_pos (by rw [h1.1.1, h2.1.1]; rfl), ih (fun y hy => hb y (by simp [hy]))]
      rw [h1.1.2, h2.1.2]
      have : x % 256 / 16 * 16 + x % 256 % 16 = x := by omega
      rw [this]
      rw [Nat.mod_eq_of_lt hx]
    | false =>
      rw [if_pos (by rw [h1.2.1, h2.2.1]; rfl), ih (fun y hy => hb y (by simp [hy]))]
      rw [h1.2.2, h2.2.2]
      have : x % 256 / 16 * 16 + x % 256 % 16 = x := by omega
      rw [this]
      rw [Nat.mod_eq_of_lt hx]

/-- The standard base64 alphabet, as byte values. -/
def b64Alphabet : List Nat :=
  "ABCDEFGHIJKLMNOPQRSTUVWXYZabcdefghijklmnopqrstuvwxyz0123456789+/".data.map Char.toNat

/-- The byte printed for a 6-bit group. -/
def b64Char (n : Nat) : Nat := b64Alphabet.getD n 65

/-- The 6-bit value of an alphabet byte. -/
def b64Val (c : Nat) : Nat := b64Alphabet.indexOf c

/-- Modelled from the spec: `SealBase64Encode()` delegates to the OpenSSL
BIO base64 filter (code external to this repository); the spec describes it
as the standard alphabet with `=` padding.  Three input bytes become four
alphabet bytes; a 1- or 2-byte remainder is padded with `==` resp. `=`
(61 is the byte `=`). -/
def SealBase64Encode : List Nat → List Nat
  | [] => []
  | [a] => [b64Char (a % 256 / 4), b64Char (a % 4 * 16), 61, 61]
  | [a, b] => [b64Char (a % 256 / 4), b64Char (a % 4 * 16 + b % 256 / 16), b64Char (b % 16 * 4), 61]
  | a :: b :: c :: rest =>
    b64Char (a % 256 / 4) :: b64Char (a % 4 * 16 + b % 256 / 16) ::
    b64Char (b % 16 * 4 + c % 256 / 64) :: b64Char (c % 64) :: SealBase64Encode rest

/-- Modelled from the spec: the group loop of `SealBase64Decode()` (OpenSSL
BIO base64, external to this repository): four alphabet bytes yield three
bytes; `=` padding in the third or fourth position ends the data with one
resp. two bytes. -/
def b64DecodeGroups : List Nat → List Nat
  | c1 :: c2 :: c3 :: c4 :: rest =>
    if c3 = 61 then [b64Val c1 * 4 + b64Val c2 / 16]
    else if c4 = 61 then
      [b64Val c1 * 4 + b64Val c2 / 16, b64Val c2 % 16 * 16 + b64Val c3 / 4]
    else
      (b64Val c1 * 4 + b64Val c2 / 16) :: (b64Val c2 % 16 * 16 + b64Val c3 / 4) ::
      ((b64Val c3 % 4 * 64 + b64Val c4) :: b64DecodeGroups rest)
  | _ => []

/-- `SealBase64Decode()` (seal-parse.cpp lines 331-364): the input is first
padded with `=` to a multiple of four bytes, then decoded in groups. -/
def SealBase64Decode (s : List Nat) : List Nat :=
  b64DecodeGroups (s ++ List.replicate ((4 - s.length % 4) % 4) 61)

/-- Alphabet lookups: every 6-bit value maps to an alphabet byte that is not
`=` and maps back to the value. -/
theorem b64_lookup : ∀ n ∈ List.range 64,
    b64Val (b64Char n) = n ∧ b64Char n ≠ 61 := by
  decide

/-- The encoded output always has length divisible by four. -/
theorem b64Encode_length_mod (b : List Nat) : (SealBase64Encode b).length % 4 = 0 := by
  induction b using SealBase64Encode.induct with
  | case1 => exact rfl
  | case2 a => simp [SealBase64Encode]
  | case3 a b => simp [SealBase64Encode]
  | case4 a b c rest ih =>
    simp only [SealBase64Encode, List.length_cons]
    omega

/-- The base64 round trip at the group level. -/
theorem b64DecodeGroups_encode (b : List Nat) (hb : ∀ x ∈ b, x < 256) :
    b64DecodeGroups (SealBase64Encode b) = b := by
  induction b using SealBase64Encode.induct with
  | case1 => exact rfl
  | case2 a =>
    have ha : a < 256 := hb a (by simp)
    have h1 := b64_lookup (a % 256 / 4) (by rw [List.mem_range]; omega)
    have h2 := b64_lookup (a % 4 * 16) (by rw [List.mem_range]; omega)
    rw [show SealBase64Encode [a] =
      [b64Char (a % 256 / 4), b64Char (a % 4 * 16), 61, 61] from rfl]
    rw [b64DecodeGroups]
    rw [if_pos rfl]
    rw [h1.1, h2.1]
    have e1 : a % 256 / 4 * 4 + a % 4 * 16 / 16 = a := by omega
    rw [e1]
  | case3 a b =>
    have ha : a < 256 := hb a (by simp)
    have hbb : b < 256 := hb b (by simp)
    have h1 := b64_lookup (a % 256 / 4) (by rw [List.mem_range]; omega)
    have h2 := b64_lookup (a % 4 * 16 + b % 256 / 16) (by rw [List.mem_range]; omega)
    have h3 := b64_lookup (b % 16 * 4) (by rw [List.mem_range]; omega)
    rw [show SealBase64Encode [a, b] =
      [b64Char (a % 256 / 4), b64Char (a % 4 * 16 + b % 256 / 16), b64Char (b % 16 * 4), 61]
      from rfl]
    rw [b64DecodeGroups]
    rw [if_neg h3.2, if_pos rfl]
    rw [h1.1, h2.1, h3.1]
    have e1 : a % 256 / 4 * 4 + (a % 4 * 16 + b % 256 / 16) / 16 = a := by omega
    have e2 : (a % 4 * 16 + b % 256 / 16) % 16 * 16 + b % 16 * 4 / 4 = b := by omega
    rw [e1, e2]
  | case4 a b c rest ih =>
    have ha : a < 256 := hb a (by simp)
    have hbb : b < 256 := hb b (by simp)
    have hc : c < 256 := hb c (by simp)
    have h1 := b64_lookup (a % 256 / 4) (by rw [List.mem_range]; omega)
    have h2 := b64_lookup (a % 4 * 16 + b % 256 / 16) (by rw [List.mem_range]; omega)
    have h3 := b64_lookup (b % 16 * 4 + c % 256 / 64) (by rw [List.mem_range]; omega)
    have h4 := b64_lookup (c % 64) (by rw [List.mem_range]; omega)
    rw [show SealBase64Encode (a :: b :: c :: rest) =
      b64Char (a % 256 / 4) :: b64Char (a % 4 * 16 + b % 256 / 16) ::
      b64Char (b % 16 * 4 + c % 256 / 64) :: b64Char (c % 64) :: SealBase64Encode rest
      from rfl]
    rw [b64DecodeGroups]
    rw [if_neg h3.2, if_neg h4.2]
    rw [h1.1, h2.1, h3.1, h4.1, ih (fun y hy => hb y (by simp [hy]))]
    have e1 : a % 256 / 4 * 4 + (a % 4 * 16 + b % 256 / 16) / 16 = a := by omega
    have e2 : (a % 4 * 16 + b % 256 / 16) % 16 * 16 + (b % 16 * 4 + c % 256 / 64) / 4 = b := by
      omega
    have e3 : (b % 16 * 4 + c % 256 / 64) % 4 * 64 + c % 64 = c := by omega
    rw [e1, e2, e3]

/-! ### XML entity codec (seal-parse.cpp lines 34-261)

The `entities[]` table carries a length per entry; for `&lt;` and `&gt;`
that length is 5 although the text is 4 bytes, so the compared (and, on
encode, copied) bytes include the literal's NUL terminator. -/

/-- Table entry for `&lt;` (length 5: includes the NUL). -/
def entLt : List Nat := [38, 108, 116, 59, 0]

/-- Table entry for `&gt;` (length 5: includes the NUL). -/
def entGt : List Nat := [38, 103, 116, 59, 0]

/-- Table entry for `&quot;` (length 6). -/
def entQuot : List Nat := [38, 113, 117, 111, 116, 59]

/-- Table entry for `&apos;` (length 6). -/
def entApos : List Nat := [38, 97, 112, 111, 115, 59]

/-- Table entry for `&amp;` (length 5). -/
def entAmp : List Nat := [38, 97, 109, 112, 59]

/-- The encoder's entity scan (seal-parse.cpp lines 242-250): the first
table entry whose character matches `c` *and* whose length fits the
remaining input (`i + len <= ValueLen`, i.e. `len <= avail` where `avail`
counts the current byte and everything after it); a matching character
whose guard fails falls through to a verbatim copy. -/
def entEnc (c : Nat) (avail : Nat) : Option (List Nat) :=
  if c = 60 ∧ 5 ≤ avail then some entLt
  else if c = 62 ∧ 5 ≤ avail then some entGt
  else if c = 34 ∧ 6 ≤ avail then some entQuot
  else if c = 39 ∧ 6 ≤ avail then some entApos
  else if c = 38 ∧ 5 ≤ avail then some entAmp
  else none

/-- The `&#x%02x;` chunk written for a non-printable byte
(seal-parse.cpp line 238). -/
def hexRefChunk (c : Nat) : List Nat :=
  [38, 35, 120, hexChar false (c % 256 / 16), hexChar false (c % 256 % 16), 59]

/-- `SealXmlEncode()` (seal-parse.cpp lines 210-261).  For non-empty input
the first (counting) pass always concludes `j > i`, so the rewrite loop
runs: each non-printable byte becomes a numeric reference, each entity
character with enough remaining input becomes its table text (including
the NUL byte for `&lt;`/`&gt;`), everything else is copied. -/
def SealXmlEncode : List Nat → List Nat
  | [] => []
  | c :: rest =>
    if ¬ isPrintB c then hexRefChunk c ++ SealXmlEncode rest
    else
      match entEnc c (1 + rest.length) with
      | some chunk => chunk ++ SealXmlEncode rest
      | none => c :: SealXmlEncode rest

/-- The decoder's entity scan (seal-parse.cpp lines 190-200): first table
entry whose full text (length included, hence the NUL for `&lt;`/`&gt;`)
is a prefix of the remaining input. -/
def entDec (suffix : List Nat) : Option (Nat × Nat) :=
  if entLt.isPrefixOf suffix then some (60, 5)
  else if entGt.isPrefixOf suffix then some (62, 5)
  else if entQuot.isPrefixOf suffix then some (34, 6)
  else if entApos.isPrefixOf suffix then some (39, 6)
  else if entAmp.isPrefixOf suffix then some (38, 5)
  else none

/-- Big-endian bytes of a numeric reference value (seal-parse.cpp lines
129-150 resp. 164-185): 4, 3, 2, 1 or zero bytes depending on magnitude. -/
def beBytes (n : Nat) : List Nat :=
  if n > 0xffffff then [n / 16777216 % 256, n / 65536 % 256, n / 256 % 256, n % 256]
  else if n > 0xffff then [n / 65536 % 256, n / 256 % 256, n % 256]
  else if n > 0xff then [n / 256 % 256, n % 256]
  else if n > 0 then [n % 256]
  else []

/-- Fold a digit run into a value (C `n = n*B + digit`; the C accumulator
is an `int`, modelled as an unbounded natural). -/
def digitsFold (base : Nat) (val : Nat → Nat) (l : List Nat) : Nat :=
  l.foldl (fun n c => n * base + val c) 0

/-- One pass of `SealXmlDecode()` (seal-parse.cpp lines 105-205), expressed
on the remaining input `suffix` with the original buffer `orig` and the
output write position `j` carried along.  The in-place loop keeps `j <= i`
and never writes at or beyond the read position, so every read sees the
original bytes; the numeric branches perform `i++` for the semicolon plus
the loop increment (consuming one byte too many) and advance `j` one slot
past the bytes they write, leaving that slot holding the original buffer
byte (`orig.getD` - positions past the end are the allocator's zero
padding).  `fuel` bounds the iteration count; the caller passes the buffer
length, which suffices because `i` advances every iteration. -/
def xmlDecodeGo (orig : List Nat) : List Nat → Nat → Nat → List Nat
  | _, _, 0 => []
  | [], _, _ => []
  | c :: rest, j, fuel + 1 =>
    if 5 ≤ (c :: rest).length ∧ [38, 35, 120].isPrefixOf (c :: rest) then
      let run := ((c :: rest).drop 3).takeWhile (fun d => isXDigitB d)
      let v := digitsFold 16 hexDigitVal run
      let w := beBytes v
      let contrib := if w.isEmpty then [c] else w ++ [orig.getD (j + w.length) 0]
      contrib ++ xmlDecodeGo orig ((c :: rest).drop (5 + run.length)) (j + contrib.length) fuel
    else if 4 ≤ (c :: rest).length ∧ [38, 35].isPrefixOf (c :: rest) then
      let run := ((c :: rest).drop 2).takeWhile (fun d => isDigitB d)
      let v := digitsFold 10 (fun d => d - 48) run
      let w := beBytes v
      let contrib := if w.isEmpty then [c] else w ++ [orig.getD (j + w.length) 0]
      contrib ++ xmlDecodeGo orig ((c :: rest).drop (4 + run.length)) (j + contrib.length) fuel
    else
      match entDec (c :: rest) with
      | some (ch, len) => ch :: xmlDecodeGo orig ((c :: rest).drop len) (j + 1) fuel
      | none => c :: xmlDecodeGo orig rest (j + 1) fuel

/-- `SealXmlDecode()` on a byte buffer. -/
def SealXmlDecode (s : List Nat) : List Nat := xmlDecodeGo s s 0 s.length

/-- C9 counterexample: the printable 4-byte string `&#99` round-trips to
`c#`.  The encoder leaves it untouched (the `&` is within the last four
bytes, so the `&amp;` guard `i+5 <= len` fails), but the decoder treats it
as a decimal character reference: it emits byte 99 plus a stale buffer
byte and consumes past the end.  So xml-decode(xml-encode(s)) ≠ s for the
printable string s = "&#99". -/
theorem c9_xml_counterexample :
    SealXmlEncode [38, 35, 57, 57] = [38, 35, 57, 57] ∧
    SealXmlDecode (SealXmlEncode [38, 35, 57, 57]) = [99, 35] ∧
    (∀ x ∈ [38, 35, 57, 57], isPrintB x = true) ∧
    SealXmlDecode (SealXmlEncode [38, 35, 57, 57]) ≠ [38, 35, 57, 57] := by
  refine ⟨rfl, rfl, by decide, by decide⟩

/-- A pattern starting with a different byte is not a prefix. -/
theorem isPrefixOf_cons_ne (a c : Nat) (pat l : List Nat) (h : c ≠ a) :
    ((a :: pat).isPrefixOf (c :: l)) = false := by
  show (a == c && pat.isPrefixOf l) = false
  simp [Ne.symm h]

/-- Every decoder pattern starts with `&`, so nothing matches at another
byte. -/
theorem entDec_not_amp (c : Nat) (l : List Nat) (h : c ≠ 38) : entDec (c :: l) = none := by
  have e1 := isPrefixOf_cons_ne 38 c [108, 116, 59, 0] l h
  have e2 := isPrefixOf_cons_ne 38 c [103, 116, 59, 0] l h
  have e3 := isPrefixOf_cons_ne 38 c [113, 117, 111, 116, 59] l h
  have e4 := isPrefixOf_cons_ne 38 c [97, 112, 111, 115, 59] l h
  have e5 := isPrefixOf_cons_ne 38 c [97, 109, 112, 59] l h
  simp [entDec, entLt, entGt, entQuot, entApos, entAmp, e1, e2, e3, e4, e5]

/-- The decoder recognises the `&lt;` chunk (NUL included). -/
theorem entDec_lt (l : List Nat) :
    entDec (38 :: 108 :: 116 :: 59 :: 0 :: l) = some (60, 5) := by
  simp [entDec, entLt, List.isPrefixOf]

/-- The decoder recognises the `&gt;` chunk (NUL included). -/
theorem entDec_gt (l : List Nat) :
    entDec (38 :: 103 :: 116 :: 59 :: 0 :: l) = some (62, 5) := by
  simp [entDec, entLt, entGt, List.isPrefixOf]

/-- The decoder recognises the `&quot;` chunk. -/
theorem entDec_quot (l : List Nat) :
    entDec (38 :: 113 :: 117 :: 111 :: 116 :: 59 :: l) = some (34, 6) := by
  simp [entDec, entLt, entGt, entQuot, List.isPrefixOf]

/-- The decoder recognises the `&apos;` chunk. -/
theorem entDec_apos (l : List Nat) :
    entDec (38 :: 97 :: 112 :: 111 :: 115 :: 59 :: l) = some (39, 6) := by
  simp [entDec, entLt, entGt, entQuot, entApos, List.isPrefixOf]

/-- A decode step at a byte other than `&` copies it verbatim. -/
theorem xmlDecodeGo_raw (orig : List Nat) (c : Nat) (l : List Nat) (j f : Nat) (h : c ≠ 38) :
    xmlDecodeGo orig (c :: l) j (f + 1) = c :: xmlDecodeGo orig l (j + 1) f := by
  have hx : ¬(5 ≤ (c :: l).length ∧ ([38, 35, 120].isPrefixOf (c :: l)) = true) := by
    rintro ⟨-, hp⟩
    rw [isPrefixOf_cons_ne 38 c [35, 120] l h] at hp
    exact absurd hp (by simp)
  have hd : ¬(4 ≤ (c :: l).length ∧ ([38, 35].isPrefixOf (c :: l)) = true) := by
    rintro ⟨-, hp⟩
    rw [isPrefixOf_cons_ne 38 c [35] l h] at hp
    exact absurd hp (by simp)
  rw [xmlDecodeGo, if_neg hx, if_neg hd, entDec_not_amp c l h]

/-- A decode step at an `&lt;` chunk produces `<` and consumes the chunk. -/
theorem xmlDecodeGo_lt (orig l : List Nat) (j f : Nat) :
    xmlDecodeGo orig (38 :: 108 :: 116 :: 59 :: 0 :: l) j (f + 1) =
      60 :: xmlDecodeGo orig l (j + 1) f := by
  have hx : ¬(5 ≤ (38 :: 108 :: 116 :: 59 :: 0 :: l).length ∧
      ([38, 35, 120].isPrefixOf (38 :: 108 :: 116 :: 59 :: 0 :: l)) = true) := by
    rintro ⟨-, hp⟩
    revert hp
    simp [List.isPrefixOf]
  have hd : ¬(4 ≤ (38 :: 108 :: 116 :: 59 :: 0 :: l).length ∧
      ([38, 35].isPrefixOf (38 :: 108 :: 116 :: 59 :: 0 :: l)) = true) := by
    rintro ⟨-, hp⟩
    revert hp
    simp [List.isPrefixOf]
  rw [xmlDecodeGo, if_neg hx, if_neg hd, entDec_lt l]
  exact rfl

/-- A decode step at an `&gt;` chunk produces `>` and consumes the chunk. -/
theorem xmlDecodeGo_gt (orig l : List Nat) (j f : Nat) :
    xmlDecodeGo orig (38 :: 103 :: 116 :: 59 :: 0 :: l) j (f + 1) =
      62 :: xmlDecodeGo orig l (j + 1) f := by
  have hx : ¬(5 ≤ (38 :: 103 :: 116 :: 59 :: 0 :: l).length ∧
      ([38, 35, 120].isPrefixOf (38 :: 103 :: 116 :: 59 :: 0 :: l)) = true) := by
    rintro ⟨-, hp⟩
    revert hp
    simp [List.isPrefixOf]
  have hd : ¬(4 ≤ (38 :: 103 :: 116 :: 59 :: 0 :: l).length ∧
      ([38, 35].isPrefixOf (38 :: 103 :: 116 :: 59 :: 0 :: l)) = true) := by
    rintro ⟨-, hp⟩
    revert hp
    simp [List.isPrefixOf]
  rw [xmlDecodeGo, if_neg hx, if_neg hd, entDec_gt l]
  exact rfl

/-- A decode step at an `&quot;` chunk produces a double quote. -/
theorem xmlDecodeGo_quot (orig l : List Nat) (j f : Nat) :
    xmlDecodeGo orig (38 :: 113 :: 117 :: 111 :: 116 :: 59 :: l) j (f + 1) =
      34 :: xmlDecodeGo orig l (j + 1) f := by
  have hx : ¬(5 ≤ (38 :: 113 :: 117 :: 111 :: 116 :: 59 :: l).length ∧
      ([38, 35, 120].isPrefixOf (38 :: 113 :: 117 :: 111 :: 116 :: 59 :: l)) = true) := by
    rintro ⟨-, hp⟩
    revert hp
    simp [List.isPrefixOf]
  have hd : ¬(4 ≤ (38 :: 113 :: 117 :: 111 :: 116 :: 59 :: l).length ∧
      ([38, 35].isPrefixOf (38 :: 113 :: 117 :: 111 :: 116 :: 59 :: l)) = true) := by
    rintro ⟨-, hp⟩
    revert hp
    simp [List.isPrefixOf]
  rw [xmlDecodeGo, if_neg hx, if_neg hd, entDec_quot l]
  exact rfl

/-- A decode step at an `&apos;` chunk produces a single quote. -/
theorem xmlDecodeGo_apos (orig l : List Nat) (j f : Nat) :
    xmlDecodeGo orig (38 :: 97 :: 112 :: 111 :: 115 :: 59 :: l) j (f + 1) =
      39 :: xmlDecodeGo orig l (j + 1) f := by
  have hx : ¬(5 ≤ (38 :: 97 :: 112 :: 111 :: 115 :: 59 :: l).length ∧
      ([38, 35, 120].isPrefixOf (38 :: 97 :: 112 :: 111 :: 115 :: 59 :: l)) = true) := by
    rintro ⟨-, hp⟩
    revert hp
    simp [List.isPrefixOf]
  have hd : ¬(4 ≤ (38 :: 97 :: 112 :: 111 :: 115 :: 59 :: l).length ∧
      ([38, 35].isPrefixOf (38 :: 97 :: 112 :: 111 :: 115 :: 59 :: l)) = true) := by
    rintro ⟨-, hp⟩
    revert hp
    simp [List.isPrefixOf]
  rw [xmlDecodeGo, if_neg hx, if_neg hd, entDec_apos l]
  exact rfl

/-- Decoding the encoder's output recovers the input, for printable input
without `&`: no numeric-reference branch ever fires, so neither the
phantom-byte slots nor the write position matter. -/
theorem xmlDecodeGo_encode (b : List Nat) :
    (∀ x ∈ b, isPrintB x = true ∧ x ≠ 38) →
    ∀ (orig : List Nat) (j fuel : Nat), (SealXmlEncode b).length ≤ fuel →
      xmlDecodeGo orig (SealXmlEncode b) j fuel = b := by
  induction b with
  | nil =>
    intro _ orig j fuel _
    cases fuel <;> rfl
  | cons c rest ih =>
    intro hb orig j fuel hfuel
    have hc : isPrintB c = true := (hb c (by simp)).1
    have hne : c ≠ 38 := (hb c (by simp)).2
    have hrest : ∀ x ∈ rest, isPrintB x = true ∧ x ≠ 38 := fun x hx => hb x (by simp [hx])
    cases hEE : entEnc c (1 + rest.length) with
    | none =>
      have hEnc : SealXmlEncode (c :: rest) = c :: SealXmlEncode rest := by
        rw [SealXmlEncode, if_neg (by simp [hc]), hEE]
      rw [hEnc] at hfuel ⊢
      obtain ⟨f, rfl⟩ : ∃ f, fuel = f + 1 := ⟨fuel - 1, by simp at hfuel; omega⟩
      rw [xmlDecodeGo_raw orig c _ j f hne]
      have hfr : (SealXmlEncode rest).length ≤ f := by
        simp at hfuel
        omega
      rw [ih hrest orig (j + 1) f hfr]
    | some chunk =>
      have hcopy := hEE
      unfold entEnc at hcopy
      split_ifs at hcopy with g1 g2 g3 g4 g5
      · obtain ⟨hcv, -⟩ := g1
        subst hcv
        injection hcopy with hch
        subst hch
        have hEnc : SealXmlEncode (60 :: rest) = entLt ++ SealXmlEncode rest := by
          rw [SealXmlEncode, if_neg (by simp [hc]), hEE]
        rw [hEnc] at hfuel ⊢
        rw [show entLt ++ SealXmlEncode rest =
          38 :: 108 :: 116 :: 59 :: 0 :: SealXmlEncode rest from rfl] at hfuel ⊢
        obtain ⟨f, rfl⟩ : ∃ f, fuel = f + 1 := ⟨fuel - 1, by simp at hfuel; omega⟩
        rw [xmlDecodeGo_lt orig (SealXmlEncode rest) j f]
        have hfr : (SealXmlEncode rest).length ≤ f := by
          simp at hfuel
          omega
        rw [ih hrest orig (j + 1) f hfr]
      · obtain ⟨hcv, -⟩ := g2
        subst hcv
        injection hcopy with hch
        subst hch
        have hEnc : SealXmlEncode (62 :: rest) = entGt ++ SealXmlEncode rest := by
          rw [SealXmlEncode, if_neg (by simp [hc]), hEE]
        rw [hEnc] at hfuel ⊢
        rw [show entGt ++ SealXmlEncode rest =
          38 :: 103 :: 116 :: 59 :: 0 :: SealXmlEncode rest from rfl] at hfuel ⊢
        obtain ⟨f, rfl⟩ : ∃ f, fuel = f + 1 := ⟨fuel - 1, by simp at hfuel; omega⟩
        rw [xmlDecodeGo_gt orig (SealXmlEncode rest) j f]
        have hfr : (SealXmlEncode rest).length ≤ f := by
          simp at hfuel
          omega
        rw [ih hrest orig (j + 1) f hfr]
      · obtain ⟨hcv, -⟩ := g3
        subst hcv
        injection hcopy with hch
        subst hch
        have hEnc : SealXmlEncode (34 :: rest) = entQuot ++ SealXmlEncode rest := by
          rw [SealXmlEncode, if_neg (by simp [hc]), hEE]
        rw [hEnc] at hfuel ⊢
        rw [show entQuot ++ SealXmlEncode rest =
          38 :: 113 :: 117 :: 111 :: 116 :: 59 :: SealXmlEncode rest from rfl] at hfuel ⊢
        obtain ⟨f, rfl⟩ : ∃ f, fuel = f + 1 := ⟨fuel - 1, by simp at hfuel; omega⟩
        rw [xmlDecodeGo_quot orig (SealXmlEncode rest) j f]
        have hfr : (SealXmlEncode rest).length ≤ f := by
          simp at hfuel
          omega
        rw [ih hrest orig (j + 1) f hfr]
      · obtain ⟨hcv, -⟩ := g4
        subst hcv
        injection hcopy with hch
        subst hch
        have hEnc : SealXmlEncode (39 :: rest) = entApos ++ SealXmlEncode rest := by
          rw [SealXmlEncode, if_neg (by simp [hc]), hEE]
        rw [hEnc] at hfuel ⊢
        rw [show entApos ++ SealXmlEncode rest =
          38 :: 97 :: 112 :: 111 :: 115 :: 59 :: SealXmlEncode rest from rfl] at hfuel ⊢
        obtain ⟨f, rfl⟩ : ∃ f, fuel = f + 1 := ⟨fuel - 1, by simp at hfuel; omega⟩
        rw [xmlDecodeGo_apos orig (SealXmlEncode rest) j f]
        have hfr : (SealXmlEncode rest).length ≤ f := by
          simp at hfuel
          omega
        rw [ih hrest orig (j + 1) f hfr]
      · obtain ⟨hcv, -⟩ := g5
        exact absurd hcv hne

/-- C9 amended: the hex codec round-trips on every byte string (upper and
lower variants), the base64 codec round-trips on every byte string, and
the XML-entity codec round-trips on every printable string that contains
no ampersand (the general printable round trip fails, see the
counterexample: the decoder misparses numeric-reference-like text). -/
theorem c9_codec_roundtrips :
    (∀ (isUpper : Bool) (b : List Nat), (∀ x ∈ b, x < 256) →
        SealHexDecode (SealHexEncode isUpper b) = b) ∧
    (∀ b : List Nat, (∀ x ∈ b, x < 256) →
        SealBase64Decode (SealBase64Encode b) = b) ∧
    (∀ b : List Nat, (∀ x ∈ b, isPrintB x = true ∧ x ≠ 38) →
        SealXmlDecode (SealXmlEncode b) = b) := by
  refine ⟨?_, ?_, ?_⟩
  · intro isUpper b hb
    rw [SealHexDecode, hexPairsDecode_encode isUpper b hb]
    rfl
  · intro b hb
    rw [SealBase64Decode, b64Encode_length_mod b]
    rw [show (4 - 0) % 4 = 0 from rfl]
    rw [show List.replicate 0 (61 : Nat) = [] from rfl, List.append_nil]
    exact b64DecodeGroups_encode b hb
  · intro b hb
    exact xmlDecodeGo_encode b hb (SealXmlEncode b) 0 (SealXmlEncode b).length le_rfl

/-- C9 witness: concrete round trips - hex on bytes 0, 171, 255; base64 on
"Man!" (a 3-byte group plus padding case); XML on the printable bytes of
`a<b"c` which exercises the `&lt;` and `&quot;` chunks. -/
theorem c9_codec_roundtrips_witness :
    SealHexDecode (SealHexEncode false [0, 171, 255]) = [0, 171, 255] ∧
    SealBase64Decode (SealBase64Encode [77, 97, 110, 33]) = [77, 97, 110, 33] ∧
    SealXmlDecode (SealXmlEncode [97, 60, 98, 34, 99]) = [97, 60, 98, 34, 99] :=
  ⟨c9_codec_roundtrips.1 false [0, 171, 255] (by decide),
   c9_codec_roundtrips.2.1 [77, 97, 110, 33] (by decide),
   c9_codec_roundtrips.2.2 [97, 60, 98, 34, 99] (by decide)⟩
